import Mathlib

/-!
# Rate relay: server (`server/server.go`) and client (`client/client.go`)

A shallow embedding of the two programs of the repository.  The programs are
mostly glue around the Go standard library, so the embedding has two layers:

* `Go`: the library operations the programs call (`context.WithTimeout`,
  `http.Client.Do`, `json.Unmarshal` into the program's structs, `http.Error`,
  `fmt.Sprintf("%.2f")`, `os.WriteFile`), each modelled after its documented
  behaviour.  What the outside world decides (what the network returns, whether
  a write succeeds, how a text converts to a float64) is an explicit argument.
* `Server` and `Client`: the functions of the two `main` packages, translated
  statement by statement over that layer.

Time is an integer number of nanoseconds, as in `time.Duration`.
-/

namespace Go

/-! ## Time and contexts -/

/-- An instant, in nanoseconds on the monotonic clock. -/
abbrev Time := Int

/-- The type `time.Duration`: a number of nanoseconds. -/
abbrev Duration := Int

/-- The constant `time.Millisecond`. -/
def Millisecond : Duration := 1000000

/-- The value of an `error`: only its message is ever used by the programs. -/
structure GoError where
  Error : String
deriving DecidableEq, Repr

/-- What the programs can observe of a `context.Context`: its deadline, if it has
one, and whether it has already been cancelled by its owner. -/
structure Context where
  deadline : Option Time
  canceled : Bool
deriving DecidableEq, Repr

/-- The root context `context.Background()`: no deadline, never cancelled. -/
def Background : Context := ⟨none, false⟩

/-- The function `context.WithDeadline`: when the parent's deadline is already
sooner than `d` the child is just a cancellable copy of the parent, otherwise
the child carries `d`.  Cancellation of the parent is inherited. -/
def WithDeadline (parent : Context) (d : Time) : Context :=
  match parent.deadline with
  | some cur => if cur < d then parent else ⟨some d, parent.canceled⟩
  | none => ⟨some d, parent.canceled⟩

/-- The function `context.WithTimeout(parent, timeout)` called at instant `now`:
`WithDeadline(parent, now.Add(timeout))`. -/
def WithTimeout (parent : Context) (now : Time) (timeout : Duration) : Context :=
  WithDeadline parent (now + timeout)

/-! ## float64 -/

/-- The values of `float64`.  A finite value is `(-1)^neg * mant * 2^exp`; every
finite float64 is of this form (the converse is not required: the results below
hold for every dyadic rational, hence for every float64). -/
inductive Float64
  | finite (neg : Bool) (mant : Nat) (exp : Int)
  | inf (neg : Bool)
  | nan
deriving DecidableEq, Repr

/-- The zero value of `float64`. -/
def Float64.zero : Float64 := .finite false 0 0

/-- Neither an infinity nor a NaN. -/
def Float64.isFinite : Float64 → Bool
  | .finite _ _ _ => true
  | _ => false

/-! ## JSON documents -/

/-- A JSON value as the `encoding/json` scanner delivers it.  A number keeps its
literal text, a string its unescaped content. -/
inductive JSON
  | null
  | bool (b : Bool)
  | number (lit : String)
  | string (s : String)
  | array (elems : List JSON)
  | object (members : List (String × JSON))

/-- A message body as a JSON reader sees it: either the bytes are not a valid
JSON text, and `err` is the `json.SyntaxError` the scanner reports for them, or
they are the text of one JSON value. -/
inductive Payload
  | invalid (err : GoError)
  | value (doc : JSON)

/-- The library conversions whose results the programs take as given. -/
structure Lib where
  /-- The call `strconv.ParseFloat(s, 64)`; `none` when it returns an error. -/
  parseFloat : String → Option Float64
  /-- The case folding `encoding/json` applies to object keys and field names. -/
  foldName : String → String

/-- How `encoding/json` names the kind of a JSON value in an `UnmarshalTypeError`. -/
def JSON.kind : JSON → String
  | .null => "null"
  | .bool _ => "bool"
  | .number _ => "number"
  | .string _ => "string"
  | .array _ => "array"
  | .object _ => "object"

/-- The error `json.UnmarshalTypeError`. -/
def unmarshalTypeError (value goType : String) : GoError :=
  ⟨"json: cannot unmarshal " ++ value ++ " into Go value of type " ++ goType⟩

/-- The error for a `,string` field whose quoted text cannot be used. -/
def invalidStringTag (item goType : String) : GoError :=
  ⟨"json: invalid use of ,string struct tag, trying to unmarshal " ++ item.quote ++ " into " ++ goType⟩

/-- The error for a `,string` field that holds an unquoted value. -/
def invalidStringTagUnquoted (goType : String) : GoError :=
  ⟨"json: invalid use of ,string struct tag, trying to unmarshal unquoted value into " ++ goType⟩

/-- The error `json.UnsupportedValueError` for a float64 that JSON cannot hold. -/
def unsupportedValue (text : String) : GoError :=
  ⟨"json: unsupported value: " ++ text⟩

/-- The decoder's state while it fills a destination of type `α`: the destination
so far and the first error it has saved (decoding goes on after a saved error,
and the saved error is returned at the end). -/
structure DecodeState (α : Type) where
  v : α
  savedError : Option GoError

/-- The method `decodeState.saveError`: only the first error is kept. -/
def DecodeState.saveError {α : Type} (d : DecodeState α) (err : GoError) : DecodeState α :=
  match d.savedError with
  | some _ => d
  | none => ⟨d.v, some err⟩

/-- The decoding of the content `item` of a JSON string given to a float64 field
with the `,string` option: the quoted word `null` leaves the field as it is, any
other text is converted with `strconv.ParseFloat` in Go's own number syntax (so
`+5.25`, `NaN` and `-Inf` are stored), and a text it refuses is an error. -/
def literalStoreQuotedFloat {α : Type} (lib : Lib) (set : Float64 → α → α)
    (item : String) (d : DecodeState α) : Except GoError (DecodeState α) :=
  if item = "null" then .ok d
  else
    match lib.parseFloat item with
    | none => .ok (d.saveError (invalidStringTag item "float64"))
    | some n => .ok ⟨set n d.v, d.savedError⟩

/-- A float64 field with the `,string` option receiving a JSON value: null is
ignored, a string is decoded from its content, anything else is an error. -/
def storeQuotedFloat {α : Type} (lib : Lib) (set : Float64 → α → α)
    (j : JSON) (d : DecodeState α) : Except GoError (DecodeState α) :=
  match j with
  | .null => .ok d
  | .string qv => literalStoreQuotedFloat lib set qv d
  | _ => .ok (d.saveError (invalidStringTagUnquoted "float64"))

/-- A plain float64 field receiving a JSON value: a number is converted with
`strconv.ParseFloat`, null is ignored, any other kind is a type error. -/
def storeFloat {α : Type} (lib : Lib) (set : Float64 → α → α)
    (j : JSON) (d : DecodeState α) : DecodeState α :=
  match j with
  | .null => d
  | .number lit =>
    match lib.parseFloat lit with
    | none => d.saveError (unmarshalTypeError ("number " ++ lit) "float64")
    | some n => ⟨set n d.v, d.savedError⟩
  | other => d.saveError (unmarshalTypeError other.kind "float64")

/-- A string field receiving a JSON value: a string is stored, null is ignored,
any other kind is a type error. -/
def storeString {α : Type} (set : String → α → α)
    (j : JSON) (d : DecodeState α) : DecodeState α :=
  match j with
  | .null => d
  | .string s => ⟨set s d.v, d.savedError⟩
  | other => d.saveError (unmarshalTypeError other.kind "string")

/-- The field an object key selects: the field whose name is the key, or failing
that the first field whose folded name is the folded key. -/
def findField {φ : Type} (lib : Lib) (fields : List φ) (name : φ → String) (key : String) :
    Option φ :=
  match fields.find? (fun f => name f == key) with
  | some f => some f
  | none => fields.find? (fun f => lib.foldName (name f) == lib.foldName key)

/-- The end of `decodeState.unmarshal`: an error returned at once wins, then the
saved error, then the value. -/
def finish {α : Type} (r : Except GoError (DecodeState α)) : Except GoError α :=
  match r with
  | .error err => .error err
  | .ok d =>
    match d.savedError with
    | some err => .error err
    | none => .ok d.v

/-- A decoding step has failed: it returned an error, or an error is saved. -/
def failed {α : Type} (r : Except GoError (DecodeState α)) : Bool :=
  match r with
  | .error _ => true
  | .ok d => d.savedError.isSome

/-- A store that never forgets a saved error. -/
def Sticky {α φ : Type} (store : φ → JSON → DecodeState α → Except GoError (DecodeState α)) :
    Prop :=
  ∀ f j d, d.savedError.isSome = true → failed (store f j d) = true

/-- The method `decodeState.object` for a struct destination: the members are
taken in order, a key that selects no field is skipped, and an error returned by
a store stops the decoding. -/
def object {α φ : Type} (lib : Lib) (fields : List φ) (name : φ → String)
    (store : φ → JSON → DecodeState α → Except GoError (DecodeState α)) :
    List (String × JSON) → DecodeState α → Except GoError (DecodeState α)
  | [], d => .ok d
  | (key, val) :: rest, d =>
    match findField lib fields name key with
    | none => object lib fields name store rest d
    | some f =>
      match store f val d with
      | .error err => .error err
      | .ok d1 => object lib fields name store rest d1

/-- A struct destination receiving a JSON value: null is ignored, an object is
decoded member by member, any other kind is a type error. -/
def storeStruct {α : Type}
    (decodeObject : List (String × JSON) → DecodeState α → Except GoError (DecodeState α))
    (goType : String) (j : JSON) (d : DecodeState α) : Except GoError (DecodeState α) :=
  match j with
  | .null => .ok d
  | .object members => decodeObject members d
  | other => .ok (d.saveError (unmarshalTypeError other.kind goType))

/-! ## HTTP client side -/

/-- The type `http.Request` as built by `http.NewRequestWithContext`. -/
structure Request where
  Method : String
  URL : String
  ctx : Context

/-- The type `http.Response`: the status and what reading the body to its end
gives (the bytes seen as a `Payload`, or a read error). -/
structure Response where
  StatusCode : Nat
  Body : Except GoError Payload

/-- The type `http.Client`, of which only `Timeout` is set. -/
structure Client where
  Timeout : Duration

/-- A request as it leaves the client: method, URL, the instant at which the
exchange is abandoned, and whether its context was already cancelled. -/
structure Exchange where
  Method : String
  URL : String
  deadline : Option Time
  canceled : Bool
deriving DecidableEq, Repr

/-- The network and the remote party: what `client.Do` returns for an exchange.
An abandoned exchange (deadline passed, context cancelled) is one of the errors. -/
abbrev RoundTripper := Exchange → Except GoError Response

/-- The earlier of two optional instants. -/
def earliest : Option Time → Option Time → Option Time
  | none, b => b
  | a, none => a
  | some a, some b => some (min a b)

/-- The method `http.Client.deadline`: `now + Timeout` when a timeout is set. -/
def Client.deadline (c : Client) (now : Time) : Option Time :=
  if 0 < c.Timeout then some (now + c.Timeout) else none

/-- The exchange `client.Do(req)` starts at instant `now`: the request is dropped
at the earlier of its context's deadline and the client's own. -/
def Client.exchange (c : Client) (req : Request) (now : Time) : Exchange :=
  ⟨req.Method, req.URL, earliest req.ctx.deadline (c.deadline now), req.ctx.canceled⟩

/-- The method `http.Client.Do`. -/
def Client.Do (c : Client) (req : Request) (now : Time) (rt : RoundTripper) :
    Except GoError Response :=
  rt (c.exchange req now)

/-- The function `http.NewRequestWithContext` with a valid method, a valid URL and
a non-nil context (the only way the programs call it): it cannot fail. -/
def NewRequestWithContext (ctx : Context) (method url : String) : Request :=
  ⟨method, url, ctx⟩

/-- The constant `http.StatusOK`. -/
def StatusOK : Nat := 200

/-- The constant `http.StatusInternalServerError`. -/
def StatusInternalServerError : Nat := 500

/-! ## Fixed-point formatting and files -/

/-- The integer nearest to `a / b`, a tie going to the even neighbour: the
rounding `strconv` applies to the exact decimal expansion of a float64. -/
def roundHalfEven (a b : Nat) : Nat :=
  let q := a / b
  let r := a % b
  if 2 * r < b then q
  else if b < 2 * r then q + 1
  else if q % 2 = 0 then q else q + 1

/-- The magnitude `mant * 2^exp` in hundredths, rounded to an integer. -/
def hundredths (mant : Nat) (exp : Int) : Nat :=
  match exp with
  | .ofNat k => mant * 2 ^ k * 100
  | .negSucc k => roundHalfEven (mant * 100) (2 ^ (k + 1))

/-- The decimal digit `d` as a character. -/
def digitChar (d : Nat) : Char := Char.ofNat (48 + d)

/-- The sign `strconv` puts in front of a number: `-` when the sign bit is set. -/
def signText (neg : Bool) : String := if neg then "-" else ""

/-- The text of a magnitude given in hundredths: the integer part, a point, and
two decimals. -/
def fixed2 (n : Nat) : String :=
  Nat.repr (n / 100) ++ "." ++ String.mk [digitChar (n % 100 / 10), digitChar (n % 10)]

/-- The verb `%.2f` of `fmt.Sprintf` applied to a float64. -/
def formatFixed2 : Float64 → String
  | .nan => "NaN"
  | .inf true => "-Inf"
  | .inf false => "+Inf"
  | .finite neg mant exp => signText neg ++ fixed2 (hundredths mant exp)

/-- The files of the working directory: the content of each name that exists. -/
abbrev Files := String → Option String

/-- The call `os.WriteFile(name, data, perm)`.  `fault` is given when the
operating system refuses the write: the error returned and what is then left
under the name.  Otherwise the file is created or truncated and holds `data`. -/
def WriteFile (fault : Option (GoError × Option String)) (files : Files)
    (name data : String) (_perm : Nat) : Files × Option GoError :=
  match fault with
  | some (err, left) => (fun p => if p = name then left else files p, some err)
  | none => (fun p => if p = name then some data else files p, none)

end Go

namespace Server
open Go

/-! ## `server/server.go` -/

/-- The constant `timeoutAPI`. -/
def timeoutAPI : Duration := 200 * Millisecond

/-- The constant `timeoutDB`. -/
def timeoutDB : Duration := 10 * Millisecond

/-- The anonymous struct of the field `UsdBrl` of `DollarRealRate`. -/
structure USDBRL where
  Code : String
  CodeIn : String
  Name : String
  High : Float64
  Low : Float64
  VarBid : Float64
  PctChange : Float64
  Bid : Float64
  Ask : Float64
  Timestamp : String
  CreateDate : String
deriving DecidableEq, Repr

/-- The struct `DollarRealRate`. -/
structure DollarRealRate where
  UsdBrl : USDBRL
deriving DecidableEq, Repr

/-- The zero value `DollarRealRate{}`. -/
def DollarRealRate.zero : DollarRealRate :=
  ⟨⟨"", "", "", .zero, .zero, .zero, .zero, .zero, .zero, "", ""⟩⟩

/-- The struct `RateBid`. -/
structure RateBid where
  Bid : Float64
deriving DecidableEq, Repr

/-- The fields of the inner struct, in declaration order. -/
inductive Field
  | Code | CodeIn | Name | High | Low | VarBid | PctChange | Bid | Ask | Timestamp | CreateDate
deriving DecidableEq, Repr

/-- The name each field has in its `json` tag. -/
def Field.tag : Field → String
  | .Code => "code"
  | .CodeIn => "codein"
  | .Name => "name"
  | .High => "high"
  | .Low => "low"
  | .VarBid => "varBid"
  | .PctChange => "pctChange"
  | .Bid => "bid"
  | .Ask => "ask"
  | .Timestamp => "timestamp"
  | .CreateDate => "create_date"

/-- All fields of the inner struct. -/
def Field.all : List Field :=
  [.Code, .CodeIn, .Name, .High, .Low, .VarBid, .PctChange, .Bid, .Ask, .Timestamp, .CreateDate]

/-- The fields declared `float64` with the `,string` option. -/
def Field.numeric : Field → Bool
  | .High | .Low | .VarBid | .PctChange | .Bid | .Ask => true
  | _ => false

/-- Storing a JSON value into one field of the inner struct. -/
def storeField (lib : Lib) (f : Field) (j : JSON) (d : DecodeState USDBRL) :
    Except GoError (DecodeState USDBRL) :=
  match f with
  | .Code => .ok (storeString (fun s u => { u with Code := s }) j d)
  | .CodeIn => .ok (storeString (fun s u => { u with CodeIn := s }) j d)
  | .Name => .ok (storeString (fun s u => { u with Name := s }) j d)
  | .High => storeQuotedFloat lib (fun x u => { u with High := x }) j d
  | .Low => storeQuotedFloat lib (fun x u => { u with Low := x }) j d
  | .VarBid => storeQuotedFloat lib (fun x u => { u with VarBid := x }) j d
  | .PctChange => storeQuotedFloat lib (fun x u => { u with PctChange := x }) j d
  | .Bid => storeQuotedFloat lib (fun x u => { u with Bid := x }) j d
  | .Ask => storeQuotedFloat lib (fun x u => { u with Ask := x }) j d
  | .Timestamp => .ok (storeString (fun s u => { u with Timestamp := s }) j d)
  | .CreateDate => .ok (storeString (fun s u => { u with CreateDate := s }) j d)

/-- Decoding the members of the object given for `USDBRL` into the inner struct. -/
def decodeUSDBRL (lib : Lib) (members : List (String × JSON)) (d : DecodeState USDBRL) :
    Except GoError (DecodeState USDBRL) :=
  object lib Field.all Field.tag (storeField lib) members d

/-- Storing a JSON value into the field `UsdBrl` (tag `USDBRL`) of a
`DollarRealRate`: the inner struct is filled in place. -/
def storeUsdBrl (lib : Lib) (j : JSON) (d : DecodeState DollarRealRate) :
    Except GoError (DecodeState DollarRealRate) :=
  match storeStruct (decodeUSDBRL lib) "struct" j ⟨d.v.UsdBrl, d.savedError⟩ with
  | .error err => .error err
  | .ok d1 => .ok ⟨⟨d1.v⟩, d1.savedError⟩

/-- Decoding the members of the top-level object into a `DollarRealRate`, whose
only field is tagged `USDBRL`. -/
def decodeDollarRealRate (lib : Lib) (members : List (String × JSON))
    (d : DecodeState DollarRealRate) : Except GoError (DecodeState DollarRealRate) :=
  object lib [()] (fun _ => "USDBRL") (fun _ => storeUsdBrl lib) members d

/-- The call `json.Unmarshal(body, &rate)`: the body is first checked to be valid
JSON, then decoded into `rate`. -/
def Unmarshal (lib : Lib) (body : Payload) (rate : DollarRealRate) :
    Except GoError DollarRealRate :=
  match body with
  | .invalid err => .error err
  | .value doc =>
    finish (storeStruct (decodeDollarRealRate lib) "main.DollarRealRate" doc ⟨rate, none⟩)

/-- The URL of the upstream rate source. -/
def upstreamURL : String := "https://economia.awesomeapi.com.br/json/last/USD-BRL"

/-- The function `getDollarRealRate`, called at instant `now`.  The Go function
returns `(DollarRealRate{}, err)` on every error path: that is `.error err`. -/
def getDollarRealRate (lib : Lib) (rt : RoundTripper) (ctx : Context) (now : Time) :
    Except GoError DollarRealRate :=
  let client : Client := ⟨timeoutAPI⟩
  let req := NewRequestWithContext ctx "GET" upstreamURL
  match client.Do req now rt with
  | .error err => .error err
  | .ok resp =>
    -- io.ReadAll(resp.Body)
    match resp.Body with
    | .error err => .error err
    | .ok body =>
      match Unmarshal lib body DollarRealRate.zero with
      | .error err => .error err
      | .ok rate => .ok rate

/-! ### The `/cotacao` handler -/

/-- One piece of a response body: the JSON encoding of a `RateBid` written by
`json.Encoder.Encode`, or a line of plain text written by `http.Error`. -/
inductive Chunk
  | json (v : RateBid)
  | line (text : String)
deriving DecidableEq, Repr

/-- The state of an `http.ResponseWriter`: the status sent with the header, once
the header has been written, and the body written so far. -/
structure ResponseWriter where
  status : Option Nat
  body : List Chunk
deriving DecidableEq, Repr

/-- The writer a handler receives: nothing written yet. -/
def ResponseWriter.fresh : ResponseWriter := ⟨none, []⟩

/-- The method `WriteHeader`: the first status written is the one sent. -/
def ResponseWriter.WriteHeader (w : ResponseWriter) (code : Nat) : ResponseWriter :=
  match w.status with
  | some _ => w
  | none => ⟨some code, w.body⟩

/-- The method `Write`: a write before any `WriteHeader` sends status 200. -/
def ResponseWriter.Write (w : ResponseWriter) (c : Chunk) : ResponseWriter :=
  let w1 := w.WriteHeader StatusOK
  ⟨w1.status, w1.body ++ [c]⟩

/-- The function `http.Error(w, error, code)`: replies with the code and the
message as a line of plain text. -/
def httpError (w : ResponseWriter) (error : String) (code : Nat) : ResponseWriter :=
  (w.WriteHeader code).Write (.line error)

/-- The text `strconv` gives a float64 that is not finite. -/
def nonFiniteText : Float64 → String
  | .inf true => "-Inf"
  | .inf false => "+Inf"
  | _ => "NaN"

/-- The call `json.NewEncoder(w).Encode(v)`.  The value is marshalled first: a
`Bid` that is NaN or an infinity has no JSON encoding, the call returns
`json.UnsupportedValueError` and nothing is written.  Otherwise the one line is
written to the (buffered) response writer. -/
def Encode (w : ResponseWriter) (v : RateBid) : ResponseWriter × Option GoError :=
  if v.Bid.isFinite then (w.Write (.json v), none)
  else (w, some (unsupportedValue (nonFiniteText v.Bid)))

/-- The table `USD_BRL` behind the handle `db`: the rows inserted so far. -/
structure DB where
  rows : List USDBRL
deriving DecidableEq, Repr

/-- Everything outside the server that a request depends on. -/
structure World where
  /-- The library conversions. -/
  lib : Lib
  /-- The upstream rate source, reached over the network. -/
  upstream : RoundTripper
  /-- The error `db.ExecContext` returns for an insert under a context, if any. -/
  execFault : Context → USDBRL → Option GoError

/-- The function `saveRate`: one `INSERT` of the eleven columns through
`db.ExecContext(ctx, ...)`; its error is returned as it is. -/
def saveRate (env : World) (ctx : Context) (db : DB) (rate : DollarRealRate) :
    DB × Option GoError :=
  match env.execFault ctx rate.UsdBrl with
  | some err => (db, some err)
  | none => (⟨db.rows ++ [rate.UsdBrl]⟩, none)

/-- What a request does, in order. -/
inductive Event
  /-- The call `getDollarRealRate(ctx)`. -/
  | fetch (ctx : Context)
  /-- The call `Encode(v)` on the response writer. -/
  | respond (v : RateBid)
  /-- The call `http.Error(w, msg, code)`. -/
  | fail (msg : String) (code : Nat)
  /-- The statement `go func() ...` capturing `rate`. -/
  | launch (rate : DollarRealRate)
  /-- The call `saveRate(ctx, db, rate)`. -/
  | save (ctx : Context) (rate : DollarRealRate)
  /-- The call `log.Println(args...)`. -/
  | log (line : String)
deriving DecidableEq, Repr

/-- The outcome of the handler function: the response writer as it leaves it, the
events in order, and the goroutine it started, if any, with the captured rate. -/
structure Handled where
  w : ResponseWriter
  trace : List Event
  task : Option DollarRealRate
deriving DecidableEq, Repr

/-- The handler registered for `/cotacao`, entered at instant `start`; `elapsed`
nanoseconds later `getDollarRealRate` sends its request. -/
def handler (env : World) (w : ResponseWriter) (r : Request) (start : Time) (elapsed : Nat) :
    Handled :=
  -- 2.1 New context
  let ctx := WithTimeout r.ctx start timeoutAPI
  -- 2.2 Get Rate
  match getDollarRealRate env.lib env.upstream ctx (start + elapsed) with
  | .error err =>
    ⟨httpError w err.Error StatusInternalServerError,
      [.fetch ctx, .fail err.Error StatusInternalServerError], none⟩
  | .ok rate =>
    -- 2.3 Return only rate Bid
    let v : RateBid := ⟨rate.UsdBrl.Bid⟩
    match Encode w v with
    | (w1, some err) =>
      ⟨httpError w1 err.Error StatusInternalServerError,
        [.fetch ctx, .respond v, .fail err.Error StatusInternalServerError], none⟩
    | (w1, none) =>
      -- 2.4 Save client search in database
      ⟨w1, [.fetch ctx, .respond v, .launch rate], some rate⟩

/-- The body of the goroutine started by the handler, running from instant `now`. -/
def persist (env : World) (db : DB) (rate : DollarRealRate) (now : Time) : DB × List Event :=
  let ctx := WithTimeout Background now timeoutDB
  match saveRate env ctx db rate with
  | (db1, some err) =>
    (db1, [.save ctx rate, .log ("Error saving dollarRealRate to DB: " ++ err.Error)])
  | (db1, none) => (db1, [.save ctx rate])

/-- A request served to its end. -/
structure Served where
  w : ResponseWriter
  db : DB
  trace : List Event
deriving DecidableEq, Repr

/-- One request from arrival to the end of its detached task: the handler runs on
a fresh writer, then the goroutine it started (if any) runs from `taskStart`. -/
def serve (env : World) (db : DB) (r : Request) (start : Time) (elapsed : Nat)
    (taskStart : Time) : Served :=
  let h := handler env ResponseWriter.fresh r start elapsed
  match h.task with
  | none => ⟨h.w, db, h.trace⟩
  | some rate =>
    let p := persist env db rate taskStart
    ⟨h.w, p.1, h.trace ++ p.2⟩

/-- The contexts passed to `saveRate` in a trace. -/
def saveContexts (trace : List Event) : List Context :=
  trace.filterMap (fun e => match e with | .save ctx _ => some ctx | _ => none)

/-- The rates for which a goroutine was launched in a trace. -/
def launches (trace : List Event) : List DollarRealRate :=
  trace.filterMap (fun e => match e with | .launch rate => some rate | _ => none)

end Server

namespace Client
open Go

/-! ## `client/client.go` -/

/-- The constant `serverURL`. -/
def serverURL : String := "http://localhost:8080/cotacao"

/-- The constant `timeoutHTTP`. -/
def timeoutHTTP : Duration := 300 * Millisecond

/-- The struct `RateBid`. -/
structure RateBid where
  Bid : Float64
deriving DecidableEq, Repr

/-- Everything outside the client that a run depends on. -/
structure World where
  /-- The library conversions. -/
  lib : Lib
  /-- The relay service, reached over the network. -/
  relay : RoundTripper
  /-- The refusal of the operating system to write a file, if it refuses. -/
  writeFault : String → String → Option (GoError × Option String)

/-- Decoding the members of an object into a `RateBid`, whose only field is
tagged `bid` and is a plain float64. -/
def decodeRateBid (lib : Lib) (members : List (String × JSON)) (d : DecodeState RateBid) :
    Except GoError (DecodeState RateBid) :=
  object lib [()] (fun _ => "bid") (fun _ j d1 => .ok (storeFloat lib (fun x _ => ⟨x⟩) j d1))
    members d

/-- The call `json.NewDecoder(resp.Body).Decode(&rate)`: the body is read, its
first JSON value is checked and decoded into `rate`. -/
def Decode (lib : Lib) (body : Except GoError Payload) (rate : RateBid) :
    Except GoError RateBid :=
  match body with
  | .error err => .error err
  | .ok (.invalid err) => .error err
  | .ok (.value doc) => finish (storeStruct (decodeRateBid lib) "main.RateBid" doc ⟨rate, none⟩)

/-- The function `getRate`, called at instant `now`. -/
def getRate (lib : Lib) (rt : RoundTripper) (ctx : Context) (now : Time) :
    Except GoError RateBid :=
  let client : Client := ⟨timeoutHTTP⟩
  let req := NewRequestWithContext ctx "GET" serverURL
  match client.Do req now rt with
  | .error err => .error err
  | .ok resp =>
    if resp.StatusCode ≠ StatusOK then
      .error ⟨"HTTP request failed with status: " ++ toString resp.StatusCode⟩
    else
      match Decode lib resp.Body ⟨.zero⟩ with
      | .error err => .error err
      | .ok rate => .ok rate

/-- The function `saveRate`: the line is formatted and written to `cotacao.txt`. -/
def saveRate (env : World) (files : Files) (bid : Float64) : Files × Option GoError :=
  let data := "Dólar: " ++ formatFixed2 bid
  WriteFile (env.writeFault "cotacao.txt" data) files "cotacao.txt" data 0o644

/-- How a run of the client ends. -/
inductive Exit
  /-- The function `main` returns. -/
  | done
  /-- The call `log.Fatal` prints the message and exits with status 1. -/
  | fatal (msg : String)
deriving DecidableEq, Repr

/-- What a run of the client does, in order. -/
inductive Event
  /-- The call `getRate(ctx)`. -/
  | getRate (ctx : Context)
  /-- The call `saveRate(bid)`. -/
  | saveRate (bid : Float64)
deriving DecidableEq, Repr

/-- The outcome of a run: the files afterwards, how it ended, what it called. -/
structure Run where
  files : Files
  exit : Exit
  trace : List Event

/-- The function `main`, entered at instant `start`; `elapsed` nanoseconds later
`getRate` sends its request. -/
def main (env : World) (files : Files) (start : Time) (elapsed : Nat) : Run :=
  -- 1. Start context
  let ctx := WithTimeout Background start timeoutHTTP
  -- 2. Get rate from server
  match getRate env.lib env.relay ctx (start + elapsed) with
  | .error err => ⟨files, .fatal err.Error, [.getRate ctx]⟩
  | .ok rate =>
    -- 3. Save txt file
    match saveRate env files rate.Bid with
    | (files1, some err) =>
      ⟨files1, .fatal ("Error saving rate to file:" ++ err.Error), [.getRate ctx, .saveRate rate.Bid]⟩
    | (files1, none) => ⟨files1, .done, [.getRate ctx, .saveRate rate.Bid]⟩

end Client

/-! ## Sample worlds

Concrete documents, networks and stores at which the results below are
evaluated. -/

namespace Sample
open Go

/-- A case folding that lowers ASCII letters. -/
def foldName (s : String) : String := String.mk (s.data.map Char.toLower)

/-- The values of `strconv.ParseFloat(s, 64)` at the texts the samples use:
`5.25 = 21 * 2^-2` (with or without a sign), `5.1234`, whose nearest float64 is
`1442108895679375 * 2^-48`, zero, and the names of the infinities and of NaN,
which Go's number syntax accepts.  The one other text the samples use is `abc`,
which `strconv.ParseFloat` refuses. -/
def parseFloat (s : String) : Option Float64 :=
  if s = "5.25" ∨ s = "+5.25" then some (.finite false 21 (-2))
  else if s = "-5.25" then some (.finite true 21 (-2))
  else if s = "5.1234" then some (.finite false 1442108895679375 (-48))
  else if s = "0" then some (.finite false 0 0)
  else if s = "Inf" ∨ s = "+Inf" then some (.inf false)
  else if s = "-Inf" then some (.inf true)
  else if s = "NaN" then some .nan
  else none

/-- The library conversions on the sample texts. -/
def lib : Lib := ⟨parseFloat, foldName⟩

/-- A complete rate document, as the upstream source sends it. -/
def rateDoc : JSON :=
  .object [("USDBRL", .object [
    ("code", .string "USD"), ("codein", .string "BRL"),
    ("name", .string "Dólar Americano/Real Brasileiro"),
    ("high", .string "5.25"), ("low", .string "5.1234"),
    ("varBid", .string "5.25"), ("pctChange", .string "5.25"),
    ("bid", .string "5.1234"), ("ask", .string "5.25"),
    ("timestamp", .string "1700000000"), ("create_date", .string "2023-11-14 19:13:20")])]

/-- The record `rateDoc` decodes to. -/
def rate : Server.DollarRealRate :=
  ⟨⟨"USD", "BRL", "Dólar Americano/Real Brasileiro",
    .finite false 21 (-2), .finite false 1442108895679375 (-48),
    .finite false 21 (-2), .finite false 21 (-2),
    .finite false 1442108895679375 (-48), .finite false 21 (-2),
    "1700000000", "2023-11-14 19:13:20"⟩⟩

/-- An upstream source that answers every exchange with status `code` and a body. -/
def answering (code : Nat) (body : Payload) : RoundTripper :=
  fun _ => .ok ⟨code, .ok body⟩

/-- An upstream source that never answers: every exchange ends at its deadline. -/
def stalled : RoundTripper :=
  fun _ => .error ⟨"context deadline exceeded"⟩

/-- A server world: the given upstream and a store that may fail. -/
def world (upstream : RoundTripper) (execFault : Option GoError) : Server.World :=
  ⟨lib, upstream, fun _ _ => execFault⟩

/-- A rate document whose `bid` is the text `-Inf`. -/
def infiniteDoc : JSON :=
  .object [("USDBRL", .object [("code", .string "USD"), ("bid", .string "-Inf")])]

/-- A client world: the given relay and a file system that may refuse writes. -/
def clientWorld (relay : RoundTripper) (writeFault : Option (GoError × Option String)) :
    Client.World :=
  ⟨lib, relay, fun _ _ => writeFault⟩

/-- A working directory in which `cotacao.txt` holds the line of an earlier run. -/
def files : Files := fun p => if p = "cotacao.txt" then some "Dólar: 4.99" else none

/-- An incoming request whose context has no deadline. -/
def request : Request := ⟨"GET", "/cotacao", Background⟩

/-- An incoming request whose context expires 50 ms after instant 0. -/
def hurried : Request := ⟨"GET", "/cotacao", ⟨some (50 * Millisecond), false⟩⟩

end Sample

/-! ## Results about the server -/

namespace Server
open Go

/-- The handler in the case where the fetch fails. -/
lemma handler_of_error {env : World} {w : ResponseWriter} {r : Request} {start : Time}
    {elapsed : Nat} {err : GoError}
    (h : getDollarRealRate env.lib env.upstream (WithTimeout r.ctx start timeoutAPI)
      (start + elapsed) = .error err) :
    handler env w r start elapsed =
      ⟨httpError w err.Error StatusInternalServerError,
        [.fetch (WithTimeout r.ctx start timeoutAPI), .fail err.Error StatusInternalServerError],
        none⟩ := by
  simp only [handler, h]

/-- The handler in the case where the fetch succeeds and the encoder fails. -/
lemma handler_of_encode_error {env : World} {w : ResponseWriter} {r : Request} {start : Time}
    {elapsed : Nat} {rate : DollarRealRate}
    (h : getDollarRealRate env.lib env.upstream (WithTimeout r.ctx start timeoutAPI)
      (start + elapsed) = .ok rate)
    (he : rate.UsdBrl.Bid.isFinite = false) :
    handler env w r start elapsed =
      ⟨httpError w (unsupportedValue (nonFiniteText rate.UsdBrl.Bid)).Error
          StatusInternalServerError,
        [.fetch (WithTimeout r.ctx start timeoutAPI), .respond ⟨rate.UsdBrl.Bid⟩,
          .fail (unsupportedValue (nonFiniteText rate.UsdBrl.Bid)).Error
            StatusInternalServerError],
        none⟩ := by
  simp [handler, h, he, Encode]

/-- The handler in the case where the fetch and the encoder both succeed. -/
lemma handler_of_ok {env : World} {w : ResponseWriter} {r : Request} {start : Time}
    {elapsed : Nat} {rate : DollarRealRate}
    (h : getDollarRealRate env.lib env.upstream (WithTimeout r.ctx start timeoutAPI)
      (start + elapsed) = .ok rate)
    (he : rate.UsdBrl.Bid.isFinite = true) :
    handler env w r start elapsed =
      ⟨w.Write (.json ⟨rate.UsdBrl.Bid⟩),
        [.fetch (WithTimeout r.ctx start timeoutAPI), .respond ⟨rate.UsdBrl.Bid⟩, .launch rate],
        some rate⟩ := by
  simp [handler, h, he, Encode]

/-- A reply through `http.Error` on a fresh writer. -/
lemma httpError_fresh (msg : String) (code : Nat) :
    httpError ResponseWriter.fresh msg code = ⟨some code, [.line msg]⟩ := by
  simp [httpError, ResponseWriter.fresh, ResponseWriter.WriteHeader, ResponseWriter.Write]

/-- A first write on a fresh writer. -/
lemma write_fresh (c : Chunk) :
    ResponseWriter.fresh.Write c = ⟨some 200, [c]⟩ := by
  simp [ResponseWriter.fresh, ResponseWriter.WriteHeader, ResponseWriter.Write, StatusOK]

/-- The goroutine's context: a fresh deadline `timeoutDB` after its start. -/
lemma persist_context (now : Time) :
    WithTimeout Background now timeoutDB = ⟨some (now + timeoutDB), false⟩ := by
  simp [WithTimeout, WithDeadline, Background]

/-- The goroutine calls `saveRate` once, under its own fresh context, and logs
the error when there is one. -/
lemma persist_eq (env : World) (db : DB) (rate : DollarRealRate) (now : Time) :
    persist env db rate now =
      match env.execFault ⟨some (now + timeoutDB), false⟩ rate.UsdBrl with
      | some err =>
        (db, [.save ⟨some (now + timeoutDB), false⟩ rate,
          .log ("Error saving dollarRealRate to DB: " ++ err.Error)])
      | none => (⟨db.rows ++ [rate.UsdBrl]⟩, [.save ⟨some (now + timeoutDB), false⟩ rate]) := by
  simp only [persist, persist_context, saveRate]
  cases env.execFault ⟨some (now + timeoutDB), false⟩ rate.UsdBrl <;> rfl

/-- The three ways a handler run can go. -/
lemma handler_cases (env : World) (r : Request) (start : Time) (elapsed : Nat) :
    (∃ err, getDollarRealRate env.lib env.upstream (WithTimeout r.ctx start timeoutAPI)
        (start + elapsed) = .error err) ∨
    (∃ rate, getDollarRealRate env.lib env.upstream (WithTimeout r.ctx start timeoutAPI)
        (start + elapsed) = .ok rate ∧ rate.UsdBrl.Bid.isFinite = false) ∨
    (∃ rate, getDollarRealRate env.lib env.upstream (WithTimeout r.ctx start timeoutAPI)
        (start + elapsed) = .ok rate ∧ rate.UsdBrl.Bid.isFinite = true) := by
  cases h : getDollarRealRate env.lib env.upstream (WithTimeout r.ctx start timeoutAPI)
      (start + elapsed) with
  | error err => exact Or.inl ⟨err, rfl⟩
  | ok rate =>
    cases he : rate.UsdBrl.Bid.isFinite with
    | true => exact Or.inr (Or.inr ⟨rate, rfl, he⟩)
    | false => exact Or.inr (Or.inl ⟨rate, rfl, he⟩)

/-- C1: when `getDollarRealRate` returns an error the request is answered with
status 500 and a body that is the error's message, no goroutine is launched, and
`saveRate` is never called: the store is left as it was. -/
theorem fetch_error_gives_500_and_no_persistence (env : World) (db : DB) (r : Request)
    (start : Time) (elapsed : Nat) (taskStart : Time) (err : GoError)
    (h : getDollarRealRate env.lib env.upstream (WithTimeout r.ctx start timeoutAPI)
      (start + elapsed) = .error err) :
    (serve env db r start elapsed taskStart).w = ⟨some 500, [.line err.Error]⟩ ∧
    (handler env ResponseWriter.fresh r start elapsed).task = none ∧
    launches (serve env db r start elapsed taskStart).trace = [] ∧
    saveContexts (serve env db r start elapsed taskStart).trace = [] ∧
    (serve env db r start elapsed taskStart).db = db := by
  simp [serve, handler_of_error h, httpError_fresh, launches, saveContexts,
    StatusInternalServerError]

/-- C1 at a concrete input: the upstream source never answers. -/
theorem fetch_error_gives_500_and_no_persistence_witness :
    getDollarRealRate (Sample.world Sample.stalled none).lib
        (Sample.world Sample.stalled none).upstream
        (WithTimeout Sample.request.ctx 0 timeoutAPI) (0 + (7 : Nat))
      = .error ⟨"context deadline exceeded"⟩ ∧
    (serve (Sample.world Sample.stalled none) ⟨[]⟩ Sample.request 0 7 9).w
      = ⟨some 500, [.line "context deadline exceeded"]⟩ ∧
    (serve (Sample.world Sample.stalled none) ⟨[]⟩ Sample.request 0 7 9).db = ⟨[]⟩ :=
  have h := fetch_error_gives_500_and_no_persistence (Sample.world Sample.stalled none)
    ⟨[]⟩ Sample.request 0 7 9 ⟨"context deadline exceeded"⟩ rfl
  ⟨rfl, h.1, h.2.2.2.2⟩

/-- C2, as stated, fails: the upstream source answers 200 with a document whose
`bid` is the text `-Inf`.  The fetch succeeds with `Bid` the negative infinity,
which has no JSON encoding: `Encode` returns an error and the handler answers
with status 500, without a quote and without launching the goroutine. -/
theorem quote_not_always_200 :
    getDollarRealRate Sample.lib (Sample.answering 200 (.value Sample.infiniteDoc))
        (WithTimeout Sample.request.ctx 0 timeoutAPI) (0 + (0 : Nat))
      = .ok ⟨⟨"USD", "", "", .zero, .zero, .zero, .zero, .inf true, .zero, "", ""⟩⟩ ∧
    (handler (Sample.world (Sample.answering 200 (.value Sample.infiniteDoc)) none)
        ResponseWriter.fresh Sample.request 0 0).w.status = some 500 ∧
    (handler (Sample.world (Sample.answering 200 (.value Sample.infiniteDoc)) none)
        ResponseWriter.fresh Sample.request 0 0).task = none := by
  exact ⟨rfl, by decide, by decide⟩

/-- C2, amended: after a successful fetch the one value handed to the response
encoder is `RateBid{Bid}` with the record's `Bid` unchanged.  When that `Bid` is
finite the response is status 200 with that value as its whole body; when it is
NaN or an infinity the encoder fails and the response is status 500 with a line
of text, and no goroutine is launched. -/
theorem quote_is_bid_when_encoded (env : World) (r : Request) (start : Time) (elapsed : Nat)
    (rate : DollarRealRate)
    (h : getDollarRealRate env.lib env.upstream (WithTimeout r.ctx start timeoutAPI)
      (start + elapsed) = .ok rate) :
    (∀ v, Event.respond v ∈ (handler env ResponseWriter.fresh r start elapsed).trace ↔
      v = ⟨rate.UsdBrl.Bid⟩) ∧
    (rate.UsdBrl.Bid.isFinite = true →
      (handler env ResponseWriter.fresh r start elapsed).w
        = ⟨some 200, [.json ⟨rate.UsdBrl.Bid⟩]⟩) ∧
    (rate.UsdBrl.Bid.isFinite = false →
      (∃ msg, (handler env ResponseWriter.fresh r start elapsed).w
        = ⟨some 500, [.line msg]⟩) ∧
      (handler env ResponseWriter.fresh r start elapsed).task = none) := by
  refine ⟨?_, ?_, ?_⟩
  · intro v
    cases he : rate.UsdBrl.Bid.isFinite with
    | true => simp [handler_of_ok h he]
    | false => simp [handler_of_encode_error h he]
  · intro he
    simp [handler_of_ok h he, write_fresh]
  · intro he
    refine ⟨⟨(unsupportedValue (nonFiniteText rate.UsdBrl.Bid)).Error, ?_⟩, ?_⟩
    · simp [handler_of_encode_error h he, httpError_fresh, StatusInternalServerError]
    · simp [handler_of_encode_error h he]

/-- C2, amended, at a concrete input: the sample record is fetched and encoded. -/
theorem quote_is_bid_when_encoded_witness :
    getDollarRealRate Sample.lib (Sample.answering 200 (.value Sample.rateDoc))
        (WithTimeout Sample.request.ctx 0 timeoutAPI) (0 + (0 : Nat)) = .ok Sample.rate ∧
    (handler (Sample.world (Sample.answering 200 (.value Sample.rateDoc)) none)
        ResponseWriter.fresh Sample.request 0 0).w
      = ⟨some 200, [.json ⟨.finite false 1442108895679375 (-48)⟩]⟩ :=
  ⟨rfl, (quote_is_bid_when_encoded
    (Sample.world (Sample.answering 200 (.value Sample.rateDoc)) none)
    Sample.request 0 0 Sample.rate rfl).2.1 rfl⟩

/-- C10: a request runs in one of three orders: fetch then failure reply; fetch,
response write, then failure reply (the write failed, nothing is launched); or
fetch, response write, launch of the goroutine, and inside it one call of
`saveRate` (followed by a log line when it fails).  So a launch always comes
after the response write, and there is at most one launch, one `saveRate` and one
new row per request. -/
theorem persistence_follows_response (env : World) (db : DB) (r : Request) (start : Time)
    (elapsed : Nat) (taskStart : Time) :
    ((∃ msg, (serve env db r start elapsed taskStart).trace =
        [.fetch (WithTimeout r.ctx start timeoutAPI), .fail msg 500]) ∨
     (∃ v msg, v.Bid.isFinite = false ∧ (serve env db r start elapsed taskStart).trace =
        [.fetch (WithTimeout r.ctx start timeoutAPI), .respond v, .fail msg 500]) ∨
     (∃ rate ctx, (serve env db r start elapsed taskStart).w
          = ⟨some 200, [.json ⟨rate.UsdBrl.Bid⟩]⟩ ∧
        ((serve env db r start elapsed taskStart).trace =
          [.fetch (WithTimeout r.ctx start timeoutAPI), .respond ⟨rate.UsdBrl.Bid⟩,
            .launch rate, .save ctx rate] ∨
         ∃ line, (serve env db r start elapsed taskStart).trace =
          [.fetch (WithTimeout r.ctx start timeoutAPI), .respond ⟨rate.UsdBrl.Bid⟩,
            .launch rate, .save ctx rate, .log line]))) ∧
    (launches (serve env db r start elapsed taskStart).trace).length ≤ 1 ∧
    (saveContexts (serve env db r start elapsed taskStart).trace).length ≤ 1 ∧
    (saveContexts (serve env db r start elapsed taskStart).trace).length
      = (launches (serve env db r start elapsed taskStart).trace).length ∧
    ((serve env db r start elapsed taskStart).db.rows = db.rows ∨
      ∃ row, (serve env db r start elapsed taskStart).db.rows = db.rows ++ [row]) := by
  rcases handler_cases env r start elapsed with ⟨err, h⟩ | ⟨rate, h, he⟩ | ⟨rate, h, he⟩
  · refine ⟨Or.inl ⟨err.Error, ?_⟩, ?_, ?_, ?_, ?_⟩ <;>
      simp [serve, handler_of_error h, launches, saveContexts, StatusInternalServerError]
  · refine ⟨Or.inr (Or.inl ⟨⟨rate.UsdBrl.Bid⟩,
      (unsupportedValue (nonFiniteText rate.UsdBrl.Bid)).Error, ?_, ?_⟩), ?_, ?_, ?_, ?_⟩ <;>
      simp [serve, handler_of_encode_error h he, launches, saveContexts,
        StatusInternalServerError, he]
  · cases hx : env.execFault ⟨some (taskStart + timeoutDB), false⟩ rate.UsdBrl with
    | none =>
      refine ⟨Or.inr (Or.inr ⟨rate, ⟨some (taskStart + timeoutDB), false⟩, ?_, Or.inl ?_⟩),
        ?_, ?_, ?_, Or.inr ⟨rate.UsdBrl, ?_⟩⟩ <;>
        simp [serve, handler_of_ok h he, persist_eq, hx, launches, saveContexts, write_fresh]
    | some e =>
      refine ⟨Or.inr (Or.inr ⟨rate, ⟨some (taskStart + timeoutDB), false⟩, ?_,
        Or.inr ⟨"Error saving dollarRealRate to DB: " ++ e.Error, ?_⟩⟩),
        ?_, ?_, ?_, Or.inl ?_⟩ <;>
        simp [serve, handler_of_ok h he, persist_eq, hx, launches, saveContexts, write_fresh]

/-- C5: the response does not depend on the store: whatever `db.ExecContext`
does, and whatever the table holds, the writer ends in the same state.  When the
request reaches persistence the caller has status 200 with the quote; a failing
`saveRate` is called once, its error goes to the log, and no row is added. -/
theorem response_independent_of_store (env : World) (db : DB) (r : Request) (start : Time)
    (elapsed : Nat) (taskStart : Time) :
    (∀ (fault : Context → USDBRL → Option GoError) (db2 : DB) (taskStart2 : Time),
      (serve ⟨env.lib, env.upstream, fault⟩ db2 r start elapsed taskStart2).w
        = (serve env db r start elapsed taskStart).w) ∧
    (∀ rate, (handler env ResponseWriter.fresh r start elapsed).task = some rate →
      (serve env db r start elapsed taskStart).w = ⟨some 200, [.json ⟨rate.UsdBrl.Bid⟩]⟩ ∧
      ∀ err, env.execFault ⟨some (taskStart + timeoutDB), false⟩ rate.UsdBrl = some err →
        (serve env db r start elapsed taskStart).trace =
          [.fetch (WithTimeout r.ctx start timeoutAPI), .respond ⟨rate.UsdBrl.Bid⟩,
            .launch rate, .save ⟨some (taskStart + timeoutDB), false⟩ rate,
            .log ("Error saving dollarRealRate to DB: " ++ err.Error)] ∧
        (serve env db r start elapsed taskStart).db = db) := by
  constructor
  · intro fault db2 taskStart2
    have hw : ∀ (e : World) (d : DB) (t : Time), (serve e d r start elapsed t).w
        = (handler e ResponseWriter.fresh r start elapsed).w := by
      intro e d t
      simp only [serve]
      cases (handler e ResponseWriter.fresh r start elapsed).task <;> rfl
    rw [hw, hw]
    rfl
  · intro rate ht
    rcases handler_cases env r start elapsed with ⟨err, h⟩ | ⟨rate1, h, he⟩ | ⟨rate1, h, he⟩
    · simp [handler_of_error h] at ht
    · simp [handler_of_encode_error h he] at ht
    · have hr : rate1 = rate := by simpa [handler_of_ok h he] using ht
      subst hr
      refine ⟨?_, ?_⟩
      · simp [serve, handler_of_ok h he, write_fresh]
      · intro err hx
        simp [serve, handler_of_ok h he, persist_eq, hx]

/-- C5 at a concrete input: the store always fails, the caller still has 200. -/
theorem response_independent_of_store_witness :
    (handler (Sample.world (Sample.answering 200 (.value Sample.rateDoc))
        (some ⟨"context deadline exceeded"⟩)) ResponseWriter.fresh Sample.request 0 0).task
      = some Sample.rate ∧
    (serve (Sample.world (Sample.answering 200 (.value Sample.rateDoc))
        (some ⟨"context deadline exceeded"⟩)) ⟨[]⟩ Sample.request 0 0 5).w
      = ⟨some 200, [.json ⟨.finite false 1442108895679375 (-48)⟩]⟩ ∧
    (serve (Sample.world (Sample.answering 200 (.value Sample.rateDoc))
        (some ⟨"context deadline exceeded"⟩)) ⟨[]⟩ Sample.request 0 0 5).db = ⟨[]⟩ :=
  have h := (response_independent_of_store
    (Sample.world (Sample.answering 200 (.value Sample.rateDoc))
      (some ⟨"context deadline exceeded"⟩)) ⟨[]⟩ Sample.request 0 0 5).2 Sample.rate rfl
  ⟨rfl, h.1, (h.2 ⟨"context deadline exceeded"⟩ rfl).2⟩


/-! ### Deadlines -/

/-- C6: let `D` be the handler's start plus `timeoutAPI` (200 ms) when the
request's context has no deadline, and otherwise the minimum of that and the
request's own deadline.  The context the handler gives `getDollarRealRate` has
deadline `D`; `D` is never later than either bound and is strictly earlier than
the request's deadline plus the budget.  `getDollarRealRate` runs under `D`: its
result is the decoding of what the upstream source answers to the one exchange
sent with deadline `D` (the HTTP client's own timeout, set later, changes
nothing), and the handler's whole outcome depends on the network only through
that answer. -/
theorem fetch_deadline_is_minimum (env : World) (w : ResponseWriter) (r : Request)
    (start : Time) (elapsed : Nat) :
    let D : Time := match r.ctx.deadline with
      | some p => min p (start + timeoutAPI)
      | none => start + timeoutAPI
    (WithTimeout r.ctx start timeoutAPI).deadline = some D ∧
    D ≤ start + timeoutAPI ∧
    (∀ p, r.ctx.deadline = some p → D ≤ p ∧ D < p + timeoutAPI) ∧
    (r.ctx.deadline = none → D = start + timeoutAPI) ∧
    getDollarRealRate env.lib env.upstream (WithTimeout r.ctx start timeoutAPI)
        (start + elapsed)
      = (match env.upstream ⟨"GET", upstreamURL, some D, r.ctx.canceled⟩ with
        | .error err => .error err
        | .ok resp =>
          match resp.Body with
          | .error err => .error err
          | .ok body => Unmarshal env.lib body DollarRealRate.zero) ∧
    (∀ upstream2 : RoundTripper,
      upstream2 ⟨"GET", upstreamURL, some D, r.ctx.canceled⟩
        = env.upstream ⟨"GET", upstreamURL, some D, r.ctx.canceled⟩ →
      handler ⟨env.lib, upstream2, env.execFault⟩ w r start elapsed
        = handler env w r start elapsed) ∧
    (handler env w r start elapsed).trace.head?
      = some (.fetch (WithTimeout r.ctx start timeoutAPI)) ∧
    timeoutAPI = 200000000 := by
  intro D
  have hT : timeoutAPI = 200000000 := by decide
  have hpos : (0 : Int) < timeoutAPI := by decide
  have hctx : WithTimeout r.ctx start timeoutAPI = ⟨some D, r.ctx.canceled⟩ := by
    show WithTimeout r.ctx start timeoutAPI
      = ⟨some (match r.ctx.deadline with
          | some p => min p (start + timeoutAPI)
          | none => start + timeoutAPI), r.ctx.canceled⟩
    unfold WithTimeout WithDeadline
    cases hp : r.ctx.deadline with
    | none => rfl
    | some p =>
      by_cases hlt : p < start + timeoutAPI
      · have hr : r.ctx = ⟨some p, r.ctx.canceled⟩ := by rw [← hp]
        simp only [hlt, if_true, min_eq_left (le_of_lt hlt)]
        exact hr
      · simp only [hlt, if_false, min_eq_right (not_lt.mp hlt)]
  have hx : Client.exchange ⟨timeoutAPI⟩
      (NewRequestWithContext (WithTimeout r.ctx start timeoutAPI) "GET" upstreamURL)
      (start + elapsed) = ⟨"GET", upstreamURL, some D, r.ctx.canceled⟩ := by
    have hle : D ≤ start + elapsed + timeoutAPI := by
      show (match r.ctx.deadline with
        | some p => min p (start + timeoutAPI)
        | none => start + timeoutAPI) ≤ _
      cases r.ctx.deadline with
      | none =>
        have he : (0 : Int) ≤ (elapsed : Int) := Int.natCast_nonneg _
        show start + timeoutAPI ≤ start + elapsed + timeoutAPI
        linarith
      | some p =>
        have hm : min p (start + timeoutAPI) ≤ start + timeoutAPI := min_le_right _ _
        have he : (0 : Int) ≤ (elapsed : Int) := Int.natCast_nonneg _
        show min p (start + timeoutAPI) ≤ start + elapsed + timeoutAPI
        linarith
    simp only [Client.exchange, NewRequestWithContext, Client.deadline, hctx, hpos, if_true,
      earliest, min_eq_left hle]
  have hfetch : ∀ rt : RoundTripper,
      getDollarRealRate env.lib rt (WithTimeout r.ctx start timeoutAPI) (start + elapsed)
      = (match rt ⟨"GET", upstreamURL, some D, r.ctx.canceled⟩ with
        | .error err => .error err
        | .ok resp =>
          match resp.Body with
          | .error err => .error err
          | .ok body => Unmarshal env.lib body DollarRealRate.zero) := by
    intro rt
    simp only [getDollarRealRate, Client.Do, hx]
    cases rt ⟨"GET", upstreamURL, some D, r.ctx.canceled⟩ with
    | error err => rfl
    | ok resp =>
      cases hb : resp.Body with
      | error err => simp only [hb]
      | ok body =>
        simp only [hb]
        cases Unmarshal env.lib body DollarRealRate.zero <;> rfl
  refine ⟨by rw [hctx], ?_, ?_, ?_, hfetch env.upstream, ?_, ?_, hT⟩
  · show (match r.ctx.deadline with
      | some p => min p (start + timeoutAPI)
      | none => start + timeoutAPI) ≤ start + timeoutAPI
    cases r.ctx.deadline with
    | none => exact le_refl _
    | some p => exact min_le_right _ _
  · intro p hp
    have hD : D = min p (start + timeoutAPI) := by
      show (match r.ctx.deadline with
        | some p => min p (start + timeoutAPI)
        | none => start + timeoutAPI) = _
      rw [hp]
    rw [hD]
    exact ⟨min_le_left _ _, lt_of_le_of_lt (min_le_left _ _) (lt_add_of_pos_right p hpos)⟩
  · intro hp
    show (match r.ctx.deadline with
      | some p => min p (start + timeoutAPI)
      | none => start + timeoutAPI) = _
    rw [hp]
  · intro upstream2 hsame
    have h2 := hfetch upstream2
    have h1 := hfetch env.upstream
    rw [hsame, ← h1] at h2
    simp only [handler, h2]
  · rcases handler_cases env r start elapsed with ⟨err, h⟩ | ⟨rate, h, he⟩ | ⟨rate, h, he⟩
    · simp [handler_of_error h]
    · simp [handler_of_encode_error h he]
    · simp [handler_of_ok h he]

/-- C6 at a concrete input: a request whose context expires 50 ms after instant 0
is fetched under the deadline 50 ms, not 200 ms and not 250 ms; an upstream that
answers only exchanges with that deadline is heard. -/
theorem fetch_deadline_is_minimum_witness :
    (WithTimeout Sample.hurried.ctx 0 timeoutAPI).deadline = some 50000000 ∧
    getDollarRealRate Sample.lib
        (fun x => if x.deadline = some 50000000 then .ok ⟨200, .ok (.value Sample.rateDoc)⟩
          else .error ⟨"unexpected deadline"⟩)
        (WithTimeout Sample.hurried.ctx 0 timeoutAPI) (0 + (3 : Nat))
      = .ok Sample.rate :=
  have h := fetch_deadline_is_minimum
    (Sample.world (fun x => if x.deadline = some 50000000
      then .ok ⟨200, .ok (.value Sample.rateDoc)⟩ else .error ⟨"unexpected deadline"⟩) none)
    ResponseWriter.fresh Sample.hurried 0 3
  ⟨h.1, h.2.2.2.2.1.trans rfl⟩

/-- C7: for a request that reaches persistence (the handler launched the
goroutine with `rate`), `saveRate` is called with the context whose deadline is
the instant the task starts plus `timeoutDB` (10 ms) and which is not cancelled:
the store after the request is what `saveRate` under that context leaves, the
request depends on the store's behaviour only through its answer under that
context, and a second request, whatever its own context, gives `saveRate` the
same context when its task starts at the same instant. -/
theorem persistence_deadline_is_fresh (env : World) (db : DB) (r : Request) (start : Time)
    (elapsed : Nat) (taskStart : Time) (rate : DollarRealRate)
    (h : (handler env ResponseWriter.fresh r start elapsed).task = some rate) :
    (serve env db r start elapsed taskStart).db
      = (saveRate env ⟨some (taskStart + 10 * Millisecond), false⟩ db rate).1 ∧
    persist env db rate taskStart
      = (match saveRate env ⟨some (taskStart + 10 * Millisecond), false⟩ db rate with
        | (db1, some err) =>
          (db1, [.save ⟨some (taskStart + 10 * Millisecond), false⟩ rate,
            .log ("Error saving dollarRealRate to DB: " ++ err.Error)])
        | (db1, none) => (db1, [.save ⟨some (taskStart + 10 * Millisecond), false⟩ rate])) ∧
    saveContexts (serve env db r start elapsed taskStart).trace
      = [⟨some (taskStart + 10 * Millisecond), false⟩] ∧
    (∀ fault : Context → USDBRL → Option GoError,
      fault ⟨some (taskStart + 10 * Millisecond), false⟩ rate.UsdBrl
        = env.execFault ⟨some (taskStart + 10 * Millisecond), false⟩ rate.UsdBrl →
      serve ⟨env.lib, env.upstream, fault⟩ db r start elapsed taskStart
        = serve env db r start elapsed taskStart) ∧
    (∀ (r2 : Request) (start2 : Time) (elapsed2 : Nat) (rate2 : DollarRealRate),
      (handler env ResponseWriter.fresh r2 start2 elapsed2).task = some rate2 →
      saveContexts (serve env db r2 start2 elapsed2 taskStart).trace
        = saveContexts (serve env db r start elapsed taskStart).trace ∧
      (serve env db r2 start2 elapsed2 taskStart).db
        = (saveRate env ⟨some (taskStart + 10 * Millisecond), false⟩ db rate2).1) ∧
    timeoutDB = 10000000 := by
  have hT : timeoutDB = 10 * Millisecond := rfl
  have hserve : ∀ (e : World) (r1 : Request) (s1 : Time) (e1 : Nat) (rate1 : DollarRealRate),
      (handler e ResponseWriter.fresh r1 s1 e1).task = some rate1 →
      serve e db r1 s1 e1 taskStart
        = ⟨(handler e ResponseWriter.fresh r1 s1 e1).w, (persist e db rate1 taskStart).1,
            (handler e ResponseWriter.fresh r1 s1 e1).trace ++ (persist e db rate1 taskStart).2⟩ := by
    intro e r1 s1 e1 rate1 ht
    simp only [serve, ht]
  have htrace : ∀ (r1 : Request) (s1 : Time) (e1 : Nat) (rate1 : DollarRealRate),
      (handler env ResponseWriter.fresh r1 s1 e1).task = some rate1 →
      saveContexts (serve env db r1 s1 e1 taskStart).trace
          = [⟨some (taskStart + 10 * Millisecond), false⟩] ∧
        (serve env db r1 s1 e1 taskStart).db
          = (saveRate env ⟨some (taskStart + 10 * Millisecond), false⟩ db rate1).1 := by
    intro r1 s1 e1 rate1 ht
    rw [hserve env r1 s1 e1 rate1 ht]
    rcases handler_cases env r1 s1 e1 with ⟨err, hf⟩ | ⟨rate0, hf, he⟩ | ⟨rate0, hf, he⟩
    · simp [handler_of_error hf] at ht
    · simp [handler_of_encode_error hf he] at ht
    · have hr : rate0 = rate1 := by simpa [handler_of_ok hf he] using ht
      subst hr
      rw [← hT]
      cases hx : env.execFault ⟨some (taskStart + timeoutDB), false⟩ rate0.UsdBrl <;>
        simp [handler_of_ok hf he, persist, persist_context, hx, saveContexts, saveRate]
  refine ⟨(htrace r start elapsed rate h).2, ?_, (htrace r start elapsed rate h).1, ?_, ?_,
    by decide⟩
  · rw [← hT]
    simp only [persist, persist_context]
  · intro fault hsame
    have h2 : (handler ⟨env.lib, env.upstream, fault⟩ ResponseWriter.fresh r start elapsed)
        = handler env ResponseWriter.fresh r start elapsed := rfl
    rw [hserve env r start elapsed rate h,
      hserve ⟨env.lib, env.upstream, fault⟩ r start elapsed rate (by rw [h2]; exact h), h2]
    rw [← hT] at hsame
    simp only [persist, persist_context, saveRate, hsame]
  · intro r2 start2 elapsed2 rate2 h2
    exact ⟨((htrace r2 start2 elapsed2 rate2 h2).1).trans (htrace r start elapsed rate h).1.symm,
      (htrace r2 start2 elapsed2 rate2 h2).2⟩

/-- C7 at a concrete input: a request whose own context expires at 50 ms has its
row saved by a task started at instant 400 ms under the deadline 410 ms; the
store accepts only inserts made under that deadline, and the row is there. -/
theorem persistence_deadline_is_fresh_witness :
    (handler ⟨Sample.lib, Sample.answering 200 (.value Sample.rateDoc),
        fun c _ => if c = ⟨some 410000000, false⟩ then none else some ⟨"wrong context"⟩⟩
      ResponseWriter.fresh Sample.hurried 0 3).task = some Sample.rate ∧
    (serve ⟨Sample.lib, Sample.answering 200 (.value Sample.rateDoc),
        fun c _ => if c = ⟨some 410000000, false⟩ then none else some ⟨"wrong context"⟩⟩
      ⟨[]⟩ Sample.hurried 0 3 400000000).db = ⟨[Sample.rate.UsdBrl]⟩ :=
  have h := persistence_deadline_is_fresh
    ⟨Sample.lib, Sample.answering 200 (.value Sample.rateDoc),
      fun c _ => if c = ⟨some 410000000, false⟩ then none else some ⟨"wrong context"⟩⟩
    ⟨[]⟩ Sample.hurried 0 3 400000000 Sample.rate rfl
  ⟨rfl, h.1.trans (by decide)⟩


/-! ### Decoding the upstream document -/

/-- A failed decoding ends in an error. -/
lemma finish_of_failed {α : Type} (r : Except GoError (DecodeState α)) (h : failed r = true) :
    ∃ err, finish r = .error err := by
  cases r with
  | error e => exact ⟨e, rfl⟩
  | ok d =>
    cases hs : d.savedError with
    | none => simp [failed, hs] at h
    | some e => exact ⟨e, by simp [finish, hs]⟩

/-- Saving an error leaves an error saved. -/
lemma saveError_isSome {α : Type} (d : DecodeState α) (err : GoError) :
    (d.saveError err).savedError.isSome = true := by
  unfold DecodeState.saveError
  cases hs : d.savedError <;> simp [hs]

/-- Decoding an object keeps a saved error. -/
lemma object_failed_of_saved {α φ : Type} (lib : Lib) (fields : List φ) (name : φ → String)
    (store : φ → JSON → DecodeState α → Except GoError (DecodeState α)) (hs : Sticky store)
    (members : List (String × JSON)) (d : DecodeState α) (hd : d.savedError.isSome = true) :
    failed (object lib fields name store members d) = true := by
  induction members generalizing d with
  | nil => simpa [object, failed] using hd
  | cons kv rest ih =>
    obtain ⟨key, val⟩ := kv
    cases hfind : findField lib fields name key with
    | none =>
      simp only [object, hfind]
      exact ih d hd
    | some f =>
      have h1 := hs f val d hd
      cases hst : store f val d with
      | error e => simp [object, hfind, hst, failed]
      | ok d1 =>
        rw [hst] at h1
        simp only [object, hfind, hst]
        exact ih d1 (by simpa [failed] using h1)

/-- Decoding an object fails as soon as one member that selects a field cannot
be stored. -/
lemma object_failed_of_mem {α φ : Type} (lib : Lib) (fields : List φ) (name : φ → String)
    (store : φ → JSON → DecodeState α → Except GoError (DecodeState α)) (hs : Sticky store)
    (members : List (String × JSON)) (key : String) (val : JSON) (f : φ)
    (hmem : (key, val) ∈ members) (hf : findField lib fields name key = some f)
    (hbad : ∀ d, failed (store f val d) = true) (d : DecodeState α) :
    failed (object lib fields name store members d) = true := by
  induction members generalizing d with
  | nil => simp at hmem
  | cons kv rest ih =>
    obtain ⟨key1, val1⟩ := kv
    rcases List.mem_cons.mp hmem with heq | hrest
    · have hk : key1 = key := (congrArg Prod.fst heq).symm
      have hv : val1 = val := (congrArg Prod.snd heq).symm
      subst hk hv
      have h1 := hbad d
      cases hst : store f val1 d with
      | error e => simp [object, hf, hst, failed]
      | ok d1 =>
        rw [hst] at h1
        simp only [object, hf, hst]
        exact object_failed_of_saved lib fields name store hs rest d1 (by simpa [failed] using h1)
    · cases hfind : findField lib fields name key1 with
      | none =>
        simp only [object, hfind]
        exact ih hrest d
      | some f1 =>
        cases hst : store f1 val1 d with
        | error e => simp [object, hfind, hst, failed]
        | ok d1 =>
          simp only [object, hfind, hst]
          exact ih hrest d1

/-- A string store keeps a saved error. -/
lemma storeString_saved {α : Type} (set : String → α → α) (j : JSON) (d : DecodeState α)
    (hd : d.savedError.isSome = true) : (storeString set j d).savedError.isSome = true := by
  cases j <;> simp only [storeString] <;> first | exact hd | exact saveError_isSome _ _

/-- A quoted-float store keeps a saved error. -/
lemma storeQuotedFloat_saved {α : Type} (lib : Lib) (set : Float64 → α → α) (j : JSON)
    (d : DecodeState α) (hd : d.savedError.isSome = true) :
    failed (storeQuotedFloat lib set j d) = true := by
  cases j with
  | string qv =>
    simp only [storeQuotedFloat, literalStoreQuotedFloat]
    split_ifs
    · simpa [failed] using hd
    · cases lib.parseFloat qv <;> simp [failed, saveError_isSome, hd]
  | null => simpa [storeQuotedFloat, failed] using hd
  | bool b => simp [storeQuotedFloat, failed, saveError_isSome]
  | number l => simp [storeQuotedFloat, failed, saveError_isSome]
  | array l => simp [storeQuotedFloat, failed, saveError_isSome]
  | object l => simp [storeQuotedFloat, failed, saveError_isSome]

/-- A quoted-float store fails on a text that `strconv.ParseFloat` refuses and
that is not the word `null`. -/
lemma storeQuotedFloat_bad {α : Type} (lib : Lib) (set : Float64 → α → α) (text : String)
    (hnull : text ≠ "null") (hnum : lib.parseFloat text = none) (d : DecodeState α) :
    failed (storeQuotedFloat lib set (.string text) d) = true := by
  simp [storeQuotedFloat, literalStoreQuotedFloat, hnull, hnum, failed, saveError_isSome]

/-- The stores of the inner struct keep a saved error. -/
lemma storeField_sticky (lib : Lib) : Sticky (storeField lib) := by
  intro f j d hd
  cases f <;> simp only [storeField] <;>
    first
    | exact storeQuotedFloat_saved lib _ j d hd
    | simpa [failed] using storeString_saved _ j d hd

/-- The store of the field `UsdBrl` keeps a saved error. -/
lemma storeUsdBrl_sticky (lib : Lib) :
    Sticky (fun (_ : Unit) => storeUsdBrl lib) := by
  intro _ j d hd
  have hinner : failed (storeStruct (decodeUSDBRL lib) "struct" j ⟨d.v.UsdBrl, d.savedError⟩)
      = true := by
    cases j with
    | object ms =>
      exact object_failed_of_saved lib _ _ _ (storeField_sticky lib) ms _ hd
    | null => simpa [storeStruct, failed] using hd
    | bool b => simp [storeStruct, failed, saveError_isSome]
    | number l => simp [storeStruct, failed, saveError_isSome]
    | string l => simp [storeStruct, failed, saveError_isSome]
    | array l => simp [storeStruct, failed, saveError_isSome]
  simp only [storeUsdBrl]
  cases hr : storeStruct (decodeUSDBRL lib) "struct" j ⟨d.v.UsdBrl, d.savedError⟩ with
  | error e => simp [failed]
  | ok d1 =>
    rw [hr] at hinner
    simpa [failed] using hinner

/-- C3, at the failing input: the upstream source answers with status 500 and a
rate document.  `getDollarRealRate` never looks at the status: it returns the
decoded record with a nil error, and the caller of `/cotacao` gets status 200 with
a quote.  The client's `getRate`, the same code with the status check, rejects
the same answer with an error that carries the status. -/
theorem upstream_status_is_not_checked :
    getDollarRealRate Sample.lib (Sample.answering 500 (.value Sample.rateDoc))
        (WithTimeout Sample.request.ctx 0 timeoutAPI) (0 + (0 : Nat)) = .ok Sample.rate ∧
    (handler (Sample.world (Sample.answering 500 (.value Sample.rateDoc)) none)
        ResponseWriter.fresh Sample.request 0 0).w
      = ⟨some 200, [.json ⟨.finite false 1442108895679375 (-48)⟩]⟩ ∧
    Client.getRate Sample.lib (Sample.answering 500 (.value Sample.rateDoc))
        (WithTimeout Background 0 Client.timeoutHTTP) 0
      = .error ⟨"HTTP request failed with status: 500"⟩ := by
  refine ⟨rfl, by decide, rfl⟩

/-- C4, as stated, fails: a body without the `USDBRL` object and a body whose
`USDBRL` object has no `bid` are both accepted with a nil error and
zero-defaulted fields, and the handler builds the quote `0` from the first of
them. -/
theorem incomplete_document_is_accepted :
    getDollarRealRate Sample.lib (Sample.answering 200 (.value (.object [])))
        (WithTimeout Sample.request.ctx 0 timeoutAPI) (0 + (0 : Nat))
      = .ok DollarRealRate.zero ∧
    getDollarRealRate Sample.lib
        (Sample.answering 200 (.value (.object [("USDBRL", .object [("code", .string "USD")])])))
        (WithTimeout Sample.request.ctx 0 timeoutAPI) (0 + (0 : Nat))
      = .ok ⟨⟨"USD", "", "", .zero, .zero, .zero, .zero, .zero, .zero, "", ""⟩⟩ ∧
    (handler (Sample.world (Sample.answering 200 (.value (.object []))) none)
        ResponseWriter.fresh Sample.request 0 0).w
      = ⟨some 200, [.json ⟨.finite false 0 0⟩]⟩ := by
  refine ⟨rfl, rfl, by decide⟩

/-- C4, amended: when the upstream body is not valid JSON `getDollarRealRate`
returns the decoder's syntax error, and when the document's `USDBRL` object gives
a numeric field a string whose text `strconv.ParseFloat` refuses (and that is not
the word `null`) it returns an error; in both cases no record reaches the
caller.  (A valid document that lacks `USDBRL` or a field is accepted, the
missing fields keeping their zero value.) -/
theorem malformed_document_is_rejected (lib : Lib) (rt : RoundTripper) (ctx : Context)
    (now : Time) (code : Nat) (body : Payload)
    (hresp : Client.Do ⟨timeoutAPI⟩ (NewRequestWithContext ctx "GET" upstreamURL) now rt
      = .ok ⟨code, .ok body⟩) :
    (∀ e, body = .invalid e → getDollarRealRate lib rt ctx now = .error e) ∧
    (∀ (members fields : List (String × JSON)) (key name text : String) (f : Field),
      body = .value (.object members) →
      (key, JSON.object fields) ∈ members →
      findField lib [()] (fun _ => "USDBRL") key = some () →
      (name, JSON.string text) ∈ fields →
      findField lib Field.all Field.tag name = some f →
      f.numeric = true →
      text ≠ "null" →
      lib.parseFloat text = none →
      ∃ err, getDollarRealRate lib rt ctx now = .error err) := by
  constructor
  · intro e hb
    subst hb
    simp only [getDollarRealRate, hresp, Unmarshal]
  · intro members fields key name text f hb hkey hsel hname hfield hnum hnull hbad
    subst hb
    have hstore : ∀ d, failed (storeField lib f (.string text) d) = true := by
      intro d
      cases f <;> first
        | exact absurd hnum (by decide)
        | (simp only [storeField]; exact storeQuotedFloat_bad lib _ text hnull hbad d)
    have hinner : ∀ d : DecodeState DollarRealRate,
        failed (storeUsdBrl lib (.object fields) d) = true := by
      intro d
      have h := object_failed_of_mem lib Field.all Field.tag (storeField lib)
        (storeField_sticky lib) fields name (.string text) f hname hfield hstore
        ⟨d.v.UsdBrl, d.savedError⟩
      simp only [storeUsdBrl, storeStruct, decodeUSDBRL]
      cases hr : object lib Field.all Field.tag (storeField lib) fields
          ⟨d.v.UsdBrl, d.savedError⟩ with
      | error e => simp [failed]
      | ok d1 =>
        rw [hr] at h
        simpa [failed] using h
    have houter := object_failed_of_mem lib [()] (fun _ => "USDBRL") (fun _ => storeUsdBrl lib)
      (storeUsdBrl_sticky lib) members key (.object fields) () hkey hsel hinner
      ⟨DollarRealRate.zero, none⟩
    obtain ⟨err, herr⟩ := finish_of_failed _ houter
    refine ⟨err, ?_⟩
    simp only [getDollarRealRate, hresp, Unmarshal, storeStruct, decodeDollarRealRate, herr]

/-- C4, amended, at a concrete input: the body `{"USDBRL": {"bid": "abc"}}`. -/
theorem malformed_document_is_rejected_witness :
    ∃ err, getDollarRealRate Sample.lib
      (Sample.answering 200 (.value (.object [("USDBRL", .object [("bid", .string "abc")])])))
      Background 0 = .error err :=
  (malformed_document_is_rejected Sample.lib
    (Sample.answering 200 (.value (.object [("USDBRL", .object [("bid", .string "abc")])])))
    Background 0 200 (.value (.object [("USDBRL", .object [("bid", .string "abc")])])) rfl).2
    [("USDBRL", .object [("bid", .string "abc")])] [("bid", .string "abc")]
    "USDBRL" "bid" "abc" Field.Bid rfl (List.mem_cons_self _ _) (by decide)
    (List.mem_cons_self _ _) (by decide) rfl (by decide) (by decide)

end Server

/-! ## Results about the client -/

namespace Client
open Go

/-- The rounding is to a nearest integer: the error is at most half a unit, and
a result exactly half a unit away is even. -/
lemma roundHalfEven_spec (a b : Nat) (hb : 0 < b) :
    2 * |(roundHalfEven a b : Int) * b - a| ≤ b ∧
    (2 * |(roundHalfEven a b : Int) * b - a| = b → roundHalfEven a b % 2 = 0) := by
  have hdiv : (a : Int) = (a / b : Nat) * b + (a % b : Nat) := by
    have := Nat.div_add_mod a b
    have h2 : ((b * (a / b) + a % b : Nat) : Int) = (a : Int) := by rw [this]
    push_cast at h2
    push_cast
    linarith
  have hr : (a % b : Nat) < b := Nat.mod_lt a hb
  have hr0 : (0 : Int) ≤ ((a % b : Nat) : Int) := Int.natCast_nonneg _
  have hrz : ((a % b : Nat) : Int) < b := by exact_mod_cast hr
  unfold roundHalfEven
  simp only
  split_ifs with h1 h2 h3
  · have e : ((a / b : Nat) : Int) * b - a = -((a % b : Nat) : Int) := by linarith
    have h1z : 2 * ((a % b : Nat) : Int) < b := by exact_mod_cast h1
    rw [e, abs_neg, abs_of_nonneg hr0]
    exact ⟨by linarith, fun h => absurd h (by linarith)⟩
  · have e : (((a / b + 1 : Nat)) : Int) * b - a = b - ((a % b : Nat) : Int) := by
      rw [Nat.cast_add, Nat.cast_one]
      linarith
    have h2z : (b : Int) < 2 * ((a % b : Nat) : Int) := by exact_mod_cast h2
    rw [e, abs_of_nonneg (by linarith)]
    exact ⟨by linarith, fun h => absurd h (by linarith)⟩
  · have e : ((a / b : Nat) : Int) * b - a = -((a % b : Nat) : Int) := by linarith
    have h1z : (b : Int) ≤ 2 * ((a % b : Nat) : Int) := by exact_mod_cast not_lt.mp h1
    have h2z : 2 * ((a % b : Nat) : Int) ≤ b := by exact_mod_cast not_lt.mp h2
    rw [e, abs_neg, abs_of_nonneg hr0]
    exact ⟨by linarith, fun _ => h3⟩
  · have e : (((a / b + 1 : Nat)) : Int) * b - a = b - ((a % b : Nat) : Int) := by
      rw [Nat.cast_add, Nat.cast_one]
      linarith
    have h1z : (b : Int) ≤ 2 * ((a % b : Nat) : Int) := by exact_mod_cast not_lt.mp h1
    rw [e, abs_of_nonneg (by linarith)]
    exact ⟨by linarith, fun _ => by omega⟩


/-- The magnitude in hundredths is the nearest integer to a hundred times the
value `mant * 2^exp`, a tie going to the even one. -/
lemma hundredths_spec (mant : Nat) (exp : Int) :
    |(hundredths mant exp : ℚ) / 100 - mant * (2 : ℚ) ^ exp| ≤ 1 / 200 ∧
    (|(hundredths mant exp : ℚ) / 100 - mant * (2 : ℚ) ^ exp| = 1 / 200 →
      hundredths mant exp % 2 = 0) := by
  cases exp with
  | ofNat k =>
    have e : (hundredths mant (Int.ofNat k) : ℚ) / 100 - mant * (2 : ℚ) ^ (Int.ofNat k) = 0 := by
      simp only [hundredths, Int.ofNat_eq_coe, zpow_natCast]
      push_cast
      ring
    rw [e]
    norm_num
  | negSucc k =>
    obtain ⟨h1, h2⟩ := roundHalfEven_spec (mant * 100) (2 ^ (k + 1)) (by positivity)
    have hb : (0 : ℚ) < (2 : ℚ) ^ (k + 1) := by positivity
    have e : (hundredths mant (Int.negSucc k) : ℚ) / 100 - mant * (2 : ℚ) ^ (Int.negSucc k)
        = (((roundHalfEven (mant * 100) (2 ^ (k + 1)) : Int) * ((2 ^ (k + 1) : Nat) : Int)
            - ((mant * 100 : Nat) : Int) : Int) : ℚ) / (100 * (2 : ℚ) ^ (k + 1)) := by
      simp only [hundredths, zpow_negSucc]
      push_cast
      field_simp
      ring
    have habs : |((((roundHalfEven (mant * 100) (2 ^ (k + 1)) : Int) * ((2 ^ (k + 1) : Nat) : Int)
            - ((mant * 100 : Nat) : Int) : Int) : ℚ)) / (100 * (2 : ℚ) ^ (k + 1))|
        = ((|(roundHalfEven (mant * 100) (2 ^ (k + 1)) : Int) * ((2 ^ (k + 1) : Nat) : Int)
            - ((mant * 100 : Nat) : Int)| : Int) : ℚ) / (100 * (2 : ℚ) ^ (k + 1)) := by
      rw [abs_div, abs_of_pos (by positivity : (0 : ℚ) < 100 * (2 : ℚ) ^ (k + 1)), Int.cast_abs]
    rw [e, habs]
    have h1q : (2 : ℚ) * ((|(roundHalfEven (mant * 100) (2 ^ (k + 1)) : Int)
        * ((2 ^ (k + 1) : Nat) : Int) - ((mant * 100 : Nat) : Int)| : Int) : ℚ)
        ≤ (2 : ℚ) ^ (k + 1) := by
      have := (Int.cast_le (R := ℚ)).mpr h1
      push_cast at this ⊢
      exact this
    constructor
    · rw [div_le_iff₀ (by positivity)]
      linarith
    · intro ht
      apply h2
      rw [div_eq_iff (by positivity)] at ht
      have h3 : (2 : ℚ) * ((|(roundHalfEven (mant * 100) (2 ^ (k + 1)) : Int)
          * ((2 ^ (k + 1) : Nat) : Int) - ((mant * 100 : Nat) : Int)| : Int) : ℚ)
          = (((2 ^ (k + 1) : Nat) : Int) : ℚ) := by
        rw [ht]
        push_cast
        ring
      exact_mod_cast h3


/-- A run in which `getRate` returns an error. -/
lemma main_of_error {env : World} {files : Files} {start : Time} {elapsed : Nat} {err : GoError}
    (h : getRate env.lib env.relay (WithTimeout Background start timeoutHTTP) (start + elapsed)
      = .error err) :
    main env files start elapsed
      = ⟨files, .fatal err.Error, [.getRate (WithTimeout Background start timeoutHTTP)]⟩ := by
  simp only [main, h]

/-- C8: when the call to the relay ends in an error (an expired deadline is one:
`client.Do` or the reading of the body then returns it), in a status other than
200, or in a body that does not decode, `getRate` returns an error and `main`
ends in `log.Fatal` with that error's message; `saveRate` is not called and every
file, `cotacao.txt` included, is as it was (absent if it was absent). -/
theorem failed_call_leaves_files_untouched (env : World) (files : Files) (start : Time)
    (elapsed : Nat)
    (h : (∃ e, Client.Do ⟨timeoutHTTP⟩
            (NewRequestWithContext (WithTimeout Background start timeoutHTTP) "GET" serverURL)
            (start + elapsed) env.relay = .error e) ∨
         (∃ resp, Client.Do ⟨timeoutHTTP⟩
            (NewRequestWithContext (WithTimeout Background start timeoutHTTP) "GET" serverURL)
            (start + elapsed) env.relay = .ok resp ∧
            (resp.StatusCode ≠ 200 ∨ (∃ e, resp.Body = .error e) ∨
              ∃ e, Decode env.lib resp.Body ⟨.zero⟩ = .error e))) :
    ∃ err, getRate env.lib env.relay (WithTimeout Background start timeoutHTTP)
        (start + elapsed) = .error err ∧
      (main env files start elapsed).exit = .fatal err.Error ∧
      (main env files start elapsed).trace
        = [.getRate (WithTimeout Background start timeoutHTTP)] ∧
      (∀ bid, Event.saveRate bid ∉ (main env files start elapsed).trace) ∧
      (main env files start elapsed).files = files := by
  have key : ∃ err, getRate env.lib env.relay (WithTimeout Background start timeoutHTTP)
      (start + elapsed) = .error err := by
    rcases h with ⟨e, he⟩ | ⟨resp, hresp, hbad⟩
    · exact ⟨e, by simp only [getRate, he]⟩
    · by_cases hs : resp.StatusCode = 200
      · have hdec : ∃ e, Decode env.lib resp.Body ⟨.zero⟩ = .error e := by
          rcases hbad with h1 | ⟨e, h2⟩ | h3
          · exact absurd hs h1
          · exact ⟨e, by simp only [Decode, h2]⟩
          · exact h3
        obtain ⟨e, he⟩ := hdec
        exact ⟨e, by simp [getRate, hresp, hs, StatusOK, he]⟩
      · exact ⟨⟨"HTTP request failed with status: " ++ toString resp.StatusCode⟩,
          by simp [getRate, hresp, hs, StatusOK]⟩
  obtain ⟨err, herr⟩ := key
  refine ⟨err, herr, ?_, ?_, ?_, ?_⟩ <;> simp [main_of_error herr]

/-- C8 at a concrete input: the relay never answers, and the line of an earlier
run stays in `cotacao.txt`. -/
theorem failed_call_leaves_files_untouched_witness :
    (main (Sample.clientWorld Sample.stalled none) Sample.files 0 3).exit
      = .fatal "context deadline exceeded" ∧
    (main (Sample.clientWorld Sample.stalled none) Sample.files 0 3).files "cotacao.txt"
      = some "Dólar: 4.99" :=
  have h := failed_call_leaves_files_untouched (Sample.clientWorld Sample.stalled none)
    Sample.files 0 3 (Or.inl ⟨⟨"context deadline exceeded"⟩, rfl⟩)
  ⟨by decide, by rw [h.choose_spec.2.2.2.2]; decide⟩

/-- C9: for every bid `main` can pass (a float64 decoded from a JSON number, hence
finite), when the operating system carries out the write, `saveRate` returns no
error and leaves in `cotacao.txt`, whatever it held before, exactly the line
`Dólar: ` followed by the sign, the integer part, a point and two decimal digits
of the number of hundredths nearest to the bid (a tie going to the even one); no
other file changes; and the bid 5.1234 is rendered `5.12`. -/
theorem saveRate_writes_two_decimals (env : World) (files : Files) (neg : Bool) (mant : Nat)
    (exp : Int)
    (hw : env.writeFault "cotacao.txt" ("Dólar: " ++ formatFixed2 (.finite neg mant exp)) = none) :
    (∃ n : Nat,
      (saveRate env files (.finite neg mant exp)).1 "cotacao.txt"
        = some ("Dólar: " ++ (signText neg ++ (Nat.repr (n / 100) ++ "." ++
            String.mk [digitChar (n % 100 / 10), digitChar (n % 10)]))) ∧
      |(n : ℚ) / 100 - mant * (2 : ℚ) ^ exp| ≤ 1 / 200 ∧
      (|(n : ℚ) / 100 - mant * (2 : ℚ) ^ exp| = 1 / 200 → n % 2 = 0)) ∧
    (saveRate env files (.finite neg mant exp)).2 = none ∧
    (∀ p, p ≠ "cotacao.txt" → (saveRate env files (.finite neg mant exp)).1 p = files p) ∧
    (∀ files2 : Files, (saveRate env files2 (.finite neg mant exp)).1 "cotacao.txt"
      = (saveRate env files (.finite neg mant exp)).1 "cotacao.txt") ∧
    formatFixed2 (.finite false 1442108895679375 (-48)) = "5.12" := by
  have hs : ∀ fs : Files, saveRate env fs (.finite neg mant exp)
      = (fun p => if p = "cotacao.txt"
          then some ("Dólar: " ++ formatFixed2 (.finite neg mant exp)) else fs p, none) := by
    intro fs
    simp only [saveRate, hw, WriteFile]
  refine ⟨⟨hundredths mant exp, ?_, (hundredths_spec mant exp).1, (hundredths_spec mant exp).2⟩,
    ?_, ?_, ?_, by decide⟩
  · simp [hs, formatFixed2, fixed2]
  · simp [hs]
  · intro p hp
    simp [hs, hp]
  · intro files2
    simp [hs]

/-- C9 at a concrete input: a run with bid 5.1234 over an earlier line. -/
theorem saveRate_writes_two_decimals_witness :
    (saveRate (Sample.clientWorld Sample.stalled none) Sample.files
        (.finite false 1442108895679375 (-48))).2 = none ∧
    (saveRate (Sample.clientWorld Sample.stalled none) Sample.files
        (.finite false 1442108895679375 (-48))).1 "cotacao.txt" = some "Dólar: 5.12" :=
  ⟨(saveRate_writes_two_decimals (Sample.clientWorld Sample.stalled none) Sample.files
      false 1442108895679375 (-48) rfl).2.1, by decide⟩

end Client
